import Mathlib

/-!
# Grid partition and block-median reduction of `project_pex.cpp`

A shallow embedding of `getMedian`, `createIntensityArray`, `createGridContext`
and `splitImageByGrid`, followed by theorems about them.

Conventions of the embedding.

* `uint` is a 32-bit unsigned integer: every product, difference and increment
  the source computes in `uint` is reduced with `u32`.  Quotients and
  remainders cannot wrap.  Pointer offsets and vector lengths are `size_t`
  values and are not reduced.
* A byte is a natural number; bytes stored in a frame are below 256.
* Undefined behaviour of the C++ program (integer division by zero, an access
  outside a vector or outside the frame memory, an insertion through an
  iterator of another container) is a `Fault`; a run that meets none returns
  `Except.ok` with the return code of the function and the objects it has
  written.
* A frame is the part of a `cv::Mat` of type `CV_8UC1` that the program reads:
  `channels()` is 1, and the unused locals `nRows` and `nCols` are left out.
* Memory allocation is taken to succeed: whether `std::bad_alloc` is thrown
  depends on the machine and is outside the embedding.  Theorems stating that
  a call returns bound the memory the call requests.
-/

namespace ProjectPex

/-- Undefined behaviours the program can run into. -/
inductive Fault where
  | divByZero
  | foreignIterator
  | nullBins
  | binIndex
  | binOverflow
  | frameOverread
  | valuesOverflow
  deriving DecidableEq, Repr

/-- Reduction of a natural number to the range of `uint`. -/
def u32 (x : Nat) : Nat := x % 4294967296

/-- Subtraction in `uint`: `a - b` on operands that are `uint` values, so that
`0 - 1` is `4294967295`. -/
def usub (a b : Nat) : Nat := u32 (4294967296 + a - b)

abbrev bin_t := List Nat
abbrev rowbins_t := List bin_t

/-- The struct `SGridContext`; a null `spLastRowBins` is `none`. -/
structure SGridContext where
  dimCols : Nat
  dimRows : Nat
  dimColsPx : Nat
  dimColsPxLast : Nat
  dimRowsPx : Nat
  dimRowsPxLast : Nat
  spBins : rowbins_t
  spLastRowBins : Option rowbins_t
  deriving DecidableEq, Repr

/-- The part of a single-channel 8-bit `cv::Mat` the program uses: `rows`,
`cols`, the distance `step` in bytes between the starts of two rows, the
continuity flag, and the memory reachable from `ptr(0)`: `size` bytes whose
values are given by `data`. -/
structure Mat where
  rows : Nat
  cols : Nat
  step : Nat
  isContinuous : Bool
  size : Nat
  data : Nat → Nat

/-- The pixel in row `i`, column `k` of the frame. -/
def Mat.pixel (m : Mat) (i k : Nat) : Nat := m.data (i * m.step + k)

/-- The source `std::sort(it->begin(), it->end())` on a vector of bytes. -/
def sortBin (b : bin_t) : bin_t := List.insertionSort (fun x y => x ≤ y) b

/-- The source `getMedian<uint8_t>`: the two operands of the sum are promoted
to `int`, the quotient is converted back to `uint8_t`. -/
def getMedian (vec : List Nat) : Nat :=
  if vec.length = 0 then 0
  else if vec.length % 2 = 0 then
    ((vec.getD (vec.length / 2 - 1) 0 + vec.getD (vec.length / 2) 0) / 2) % 256
  else vec.getD (vec.length / 2) 0

/-- The source `createIntensityArray`: the return code and the new vector. -/
def createIntensityArray (dimCols dimRows : Nat) : Nat × List Nat :=
  (0, List.replicate (u32 (dimCols * dimRows)) 0)

/-- The source `std::vector::resize(n, v)`. -/
def resize (l : List Nat) (n v : Nat) : List Nat :=
  l.take n ++ List.replicate (n - l.length) v

/-- The source `createGridContext`: the return code and the filled context.
When `dimRowsPxLast` is not 0 the call
`spLastRowBins->insert(spBins->end(), dimCols - 1, bin)` passes an iterator of
another vector, which is undefined behaviour whatever the count is. -/
def createGridContext (imgCols imgRows dimCols dimRows : Nat) :
    Except Fault (Nat × SGridContext) :=
  if dimCols = 0 then .error .divByZero
  else if dimRows = 0 then .error .divByZero
  else
    let dimColsPx := imgCols / dimCols
    let dimColsPxLast := imgCols % dimCols
    let dimRowsPx := imgRows / dimRows
    let dimRowsPxLast := imgRows % dimRows
    let bin : bin_t := List.replicate (u32 (dimColsPx * dimRowsPx)) 0
    let spBins : rowbins_t := List.replicate (usub dimCols 1) bin
    let bin := resize bin (u32 (dimColsPxLast * dimRowsPx)) 0
    let spBins := spBins ++ [bin]
    if dimRowsPxLast ≠ 0 then .error .foreignIterator
    else
      .ok (0, { dimCols := dimCols, dimRows := dimRows,
                dimColsPx := dimColsPx, dimColsPxLast := dimColsPxLast,
                dimRowsPx := dimRowsPx, dimRowsPxLast := dimRowsPxLast,
                spBins := spBins, spLastRowBins := none })

/-- The `n` bytes of frame memory that start at offset `a` from `ptr(0)`. -/
def frameRun (m : Mat) (a n : Nat) : List Nat := (List.range n).map (fun t => m.data (a + t))

/-- The source `memcpy(dst.data() + dOff, p + sOff, n)` from the frame memory
into a bin: both ranges have to lie inside their objects. -/
def memcpy (dst : bin_t) (dOff : Nat) (m : Mat) (sOff n : Nat) : Except Fault bin_t :=
  if dst.length < dOff + n then .error .binOverflow
  else if m.size < sOff + n then .error .frameOverread
  else .ok (dst.take dOff ++ frameRun m sOff n ++ dst.drop (dOff + n))

/-- The offset from `ptr(0)` that the source adds the column offset to: in
the continuous branch `p = ptr(0)` and `i * cols` is a `uint` product, in
the other branch `p = ptr(i)`. -/
def rowBase (m : Mat) (i : Nat) : Nat :=
  if m.isContinuous then u32 (i * m.cols) else i * m.step

/-- One copy of the source loops over the cell columns: the run of `width`
bytes of frame row `i` that starts at column offset `u32 (j * width)` goes to
bin `j` at offset `u32 (width * iDimRow)`. -/
def copyRun (m : Mat) (i iDimRow width j : Nat) (bins : rowbins_t) : Except Fault rowbins_t :=
  match bins.get? j with
  | none => .error .binIndex
  | some b =>
    match memcpy b (u32 (width * iDimRow)) m (rowBase m i + u32 (j * width)) width with
    | .error e => .error e
    | .ok b1 => .ok (bins.set j b1)

/-- The source loop `for (; j < dimCols - 1; j++)` with `n` iterations left. -/
def copyRuns (m : Mat) (i iDimRow width : Nat) : Nat → Nat → rowbins_t → Except Fault rowbins_t
  | 0, _, bins => .ok bins
  | n + 1, j, bins =>
    match copyRun m i iDimRow width j bins with
    | .error e => .error e
    | .ok bins1 => copyRuns m i iDimRow width n (j + 1) bins1

/-- The source loop over the bins of one cell row: each bin is sorted in
place, its median is stored at `iVal`, and `iVal` is incremented.  The
arguments are the bins already visited (in reverse), the bins to visit, the
output vector and `iVal`. -/
def saveMedians : rowbins_t → rowbins_t → List Nat → Nat →
    Except Fault (rowbins_t × List Nat × Nat)
  | done, [], values, iVal => .ok (done.reverse, values, iVal)
  | done, b :: rest, values, iVal =>
    if iVal < values.length then
      saveMedians (sortBin b :: done) rest (values.set iVal (getMedian (sortBin b))) (u32 (iVal + 1))
    else .error .valuesOverflow

/-- The source test `(iDim < dimRows - 1) || (dimRowsPxLast == 0)` for image
row `i`: whether the row goes to `spBins` (otherwise to `spLastRowBins`). -/
def useBins (context : SGridContext) (i : Nat) : Bool :=
  decide (i / context.dimRowsPx < usub context.dimRows 1) || decide (context.dimRowsPxLast = 0)

/-- The source variable `bins` of image row `i`: a copy of the shared pointer
`spBins` or `spLastRowBins`, which may be null. -/
def rowBins (context : SGridContext) (i : Nat) : Option rowbins_t :=
  if useBins context i then some context.spBins else context.spLastRowBins

/-- The source variable `lastDimPx` of image row `i`. -/
def lastDimPx (context : SGridContext) (i : Nat) : Nat :=
  if useBins context i then context.dimRowsPx else context.dimRowsPxLast

/-- The context after the bins reached through the pointer `bins` of image
row `i` have been changed to `bs`. -/
def storeBins (context : SGridContext) (i : Nat) (bs : rowbins_t) : SGridContext :=
  if useBins context i then { context with spBins := bs }
  else { context with spLastRowBins := some bs }

/-- The body of the source loop over the image rows, for row `i`, on the
output vector, the context and `iVal`. -/
def rowStep (m : Mat) (i : Nat) (st : List Nat × SGridContext × Nat) :
    Except Fault (List Nat × SGridContext × Nat) :=
  if st.2.1.dimRowsPx = 0 then .error .divByZero
  else
    match rowBins st.2.1 i with
    | none => .error .nullBins
    | some bins =>
      match copyRuns m i (i % st.2.1.dimRowsPx) st.2.1.dimColsPx (usub st.2.1.dimCols 1) 0 bins with
      | .error e => .error e
      | .ok bins1 =>
        match copyRun m i (i % st.2.1.dimRowsPx) st.2.1.dimColsPxLast
            (usub st.2.1.dimCols 1) bins1 with
        | .error e => .error e
        | .ok bins2 =>
          if i % st.2.1.dimRowsPx = usub (lastDimPx st.2.1 i) 1 then
            match saveMedians [] bins2 st.1 st.2.2 with
            | .error e => .error e
            | .ok res => .ok (res.2.1, storeBins st.2.1 i res.1, res.2.2)
          else .ok (st.1, storeBins st.2.1 i bins2, st.2.2)

/-- The source loop `for (uint i = 0; i < spMat->rows; ++i)` with `n` rows
left, the next one being row `i`. -/
def rowLoop (m : Mat) : Nat → Nat → List Nat × SGridContext × Nat →
    Except Fault (List Nat × SGridContext × Nat)
  | 0, _, st => .ok st
  | n + 1, i, st =>
    match rowStep m i st with
    | .error e => .error e
    | .ok st1 => rowLoop m n (i + 1) st1

/-- The source `splitImageByGrid`: the return code, the output vector and the
context after the call. -/
def splitImageByGrid (m : Mat) (values : List Nat) (context : SGridContext) :
    Except Fault (Nat × List Nat × SGridContext) :=
  match rowLoop m m.rows 0 (values, context, 0) with
  | .error e => .error e
  | .ok st => .ok (0, st.1, st.2.1)

/-- A continuous frame of `rows` x `cols` pixels that all equal `v`. -/
def constMat (rows cols v : Nat) : Mat :=
  { rows := rows, cols := cols, step := cols, isContinuous := true,
    size := rows * cols, data := fun _ => v }

/-- A continuous frame holding the given bytes row after row. -/
def listMat (rows cols : Nat) (px : List Nat) : Mat :=
  { rows := rows, cols := cols, step := cols, isContinuous := true,
    size := rows * cols, data := fun a => px.getD a 0 }

/-- A frame of `rows` x `cols` pixels stored with `step` bytes per row, the
bytes between the end of a row and the start of the next one holding `pad`. -/
def paddedMat (rows cols step : Nat) (px : List Nat) (pad : Nat) : Mat :=
  { rows := rows, cols := cols, step := step, isContinuous := false,
    size := rows * step,
    data := fun a => if a % step < cols then px.getD (a / step * cols + a % step) 0 else pad }

/-- The whole pipeline on one frame: `createIntensityArray`, `createGridContext`
on the dimensions of the frame, then one call of `splitImageByGrid`. -/
def fingerprint (m : Mat) (dimCols dimRows : Nat) : Except Fault (Nat × List Nat × SGridContext) :=
  match createGridContext m.cols m.rows dimCols dimRows with
  | .error e => .error e
  | .ok (_, context) => splitImageByGrid m (createIntensityArray dimCols dimRows).2 context

/-- The memory of a one-row frame of five pixels `1,2,3,4,5` that is a view
into a larger allocation: eight bytes are reachable, the sixth holds `x`. -/
def viewMat (x : Nat) : Mat :=
  { rows := 1, cols := 5, step := 8, isContinuous := true, size := 8,
    data := fun a => [1, 2, 3, 4, 5, x, 0, 0].getD a 0 }

/-- The top two rows of a continuous matrix of 5 x 3 pixels `1 .. 15`: a frame
of 5 x 2 pixels `1 .. 10` flagged continuous, with the third row of the
matrix reachable behind it. -/
def topRowsMat : Mat :=
  { rows := 2, cols := 5, step := 5, isContinuous := true, size := 15,
    data := fun a => [1, 2, 3, 4, 5, 6, 7, 8, 9, 10, 11, 12, 13, 14, 15].getD a 0 }

/-- The context the statements of `createGridContext` describe for an image of
1 x 3 pixels and a grid of 1 column and 2 rows, as a library leaves it that
carries out the insertion of zero elements without a check. -/
def lastRowContext : SGridContext :=
  { dimCols := 1, dimRows := 2, dimColsPx := 1, dimColsPxLast := 0, dimRowsPx := 1,
    dimRowsPxLast := 1, spBins := [[]], spLastRowBins := some [[]] }

/-- The context of a grid of `c` x `R` cells of `w` x `h` pixels without
remainders, holding the bins `bins`. -/
def evenContext (c R w h : Nat) (bins : rowbins_t) : SGridContext :=
  { dimCols := c, dimRows := R, dimColsPx := w, dimColsPxLast := 0, dimRowsPx := h,
    dimRowsPxLast := 0, spBins := bins, spLastRowBins := none }

/-- The pixels `frame[i][k]` with `r*h <= i < r*h + t` and `c*w <= k < (c+1)*w`,
row after row: the first `t` rows of the rectangle of cell `(r, c)`. -/
def cellRows (m : Mat) (h w r c t : Nat) : List Nat :=
  (List.range t).flatMap (fun di => (List.range w).map (fun dk => m.pixel (r * h + di) (c * w + dk)))

/-- The pixels `frame[i][k]` with `r*h <= i < (r+1)*h` and `c*w <= k < (c+1)*w`,
row after row. -/
def cellPixels (m : Mat) (h w r c : Nat) : List Nat := cellRows m h w r c h

/-- A well-formed frame: when it is flagged continuous its rows follow one
another without a gap, and every row of `cols` pixels lies inside the frame
memory. -/
structure Mat.WellFormed (m : Mat) : Prop where
  continuous : m.isContinuous = true → ∀ i, i < m.rows → i * m.step = i * m.cols
  inside : ∀ i, i < m.rows → i * m.step + m.cols ≤ m.size

/-- A frame of at most `h * R` rows and at least `w * c` columns, for a grid
of `c >= 2` columns and `R >= 1` rows of cells of `w` x `h` pixels, where
`h * R` rows of the width of the frame have fewer than `2^32` pixels. -/
structure Fits (m : Mat) (c R w h : Nat) : Prop where
  wf : m.WellFormed
  hc : 2 ≤ c
  hR : 1 ≤ R
  hw : 0 < w
  hh : 0 < h
  cols_ge : w * c ≤ m.cols
  rows_le : m.rows ≤ h * R
  small : m.cols * (h * R) < 4294967296

/-- The state of the row loop of `splitImageByGrid` before image row `n`, in
a grid of `c` x `R` cells of `w` x `h` pixels: `iVal` counts the cells of the
finished cell rows, every regular bin starts with the rows of its cell read
so far, and the output holds the medians of the finished cell rows. -/
def LoopInv (m : Mat) (c R w h n : Nat) (st : List Nat × SGridContext × Nat) : Prop :=
  ∃ bins, st.2.1 = evenContext c R w h bins ∧ st.2.2 = n / h * c ∧ st.1.length = c * R ∧
    bins.length = c ∧
    (∀ j, j < c - 1 → ∃ b, bins[j]? = some b ∧ b.length = w * h ∧
      b.take (w * (n % h)) = cellRows m h w (n / h) j (n % h)) ∧
    (∀ r j, r < n / h → j < c - 1 →
      st.1[r * c + j]? = some (getMedian (sortBin (cellPixels m h w r j))))

theorem sortBin_perm (b : bin_t) : (sortBin b).Perm b :=
  List.perm_insertionSort _ b

theorem sortBin_sorted (b : bin_t) : (sortBin b).Sorted (fun x y => x ≤ y) :=
  List.sorted_insertionSort _ b

theorem sortBin_length (b : bin_t) : (sortBin b).length = b.length :=
  (sortBin_perm b).length_eq

theorem getD_lt_of_forall_lt (l : List Nat) (i : Nat) (h : ∀ x ∈ l, x < 256) :
    l.getD i 0 < 256 := by
  rw [List.getD_eq_getElem?_getD]
  rcases Nat.lt_or_ge i l.length with hi | hi
  · rw [List.getElem?_eq_getElem hi]
    exact h _ (List.getElem_mem hi)
  · rw [List.getElem?_eq_none hi]
    decide

theorem getMedian_lt (l : List Nat) (h : ∀ x ∈ l, x < 256) : getMedian l < 256 := by
  unfold getMedian
  split
  · decide
  · split
    · exact Nat.mod_lt _ (by decide)
    · exact getD_lt_of_forall_lt l _ h

theorem u32_of_lt {x : Nat} (h : x < 4294967296) : u32 x = x := Nat.mod_eq_of_lt h

theorem usub_one {a : Nat} (h1 : 1 ≤ a) (h2 : a < 4294967296) : usub a 1 = a - 1 := by
  unfold usub u32
  omega

theorem frameRun_length (m : Mat) (a n : Nat) : (frameRun m a n).length = n := by
  simp [frameRun]

/-- A copy whose two ranges lie inside their objects replaces the bytes
`dOff .. dOff + n - 1` of the bin by the run and keeps the length. -/
theorem memcpy_ok (dst : bin_t) (dOff : Nat) (m : Mat) (sOff n : Nat)
    (h1 : dOff + n ≤ dst.length) (h2 : sOff + n ≤ m.size) :
    memcpy dst dOff m sOff n = .ok (dst.take dOff ++ frameRun m sOff n ++ dst.drop (dOff + n)) := by
  unfold memcpy
  rw [if_neg (by omega), if_neg (by omega)]

theorem copyRun_ok (m : Mat) (i iDimRow width j : Nat) (bins : rowbins_t) (b : bin_t)
    (hb : bins[j]? = some b)
    (h1 : u32 (width * iDimRow) + width ≤ b.length)
    (h2 : rowBase m i + u32 (j * width) + width ≤ m.size) :
    copyRun m i iDimRow width j bins =
      .ok (bins.set j (b.take (u32 (width * iDimRow))
        ++ frameRun m (rowBase m i + u32 (j * width)) width
        ++ b.drop (u32 (width * iDimRow) + width))) := by
  unfold copyRun
  rw [List.get?_eq_getElem?, hb]
  simp only []
  rw [memcpy_ok _ _ _ _ _ h1 h2]

/-- The loop over the regular columns: `n` bins from index `j` on receive
their run, the other bins are untouched. -/
theorem copyRuns_ok (m : Mat) (i iDimRow width : Nat) (n : Nat) :
    ∀ (j : Nat) (bins : rowbins_t),
    (∀ k, j ≤ k → k < j + n → ∃ b, bins[k]? = some b ∧
      u32 (width * iDimRow) + width ≤ b.length ∧
      rowBase m i + u32 (k * width) + width ≤ m.size) →
    ∃ bins1, copyRuns m i iDimRow width n j bins = .ok bins1 ∧
      bins1.length = bins.length ∧
      (∀ k, (k < j ∨ j + n ≤ k) → bins1[k]? = bins[k]?) ∧
      (∀ k b, j ≤ k → k < j + n → bins[k]? = some b →
        bins1[k]? = some (b.take (u32 (width * iDimRow))
          ++ frameRun m (rowBase m i + u32 (k * width)) width
          ++ b.drop (u32 (width * iDimRow) + width))) := by
  induction n with
  | zero =>
    intro j bins _
    refine ⟨bins, rfl, rfl, fun _ _ => rfl, ?_⟩
    intro k b h1 h2
    omega
  | succ n ih =>
    intro j bins hyp
    obtain ⟨b, hb, hb1, hb2⟩ := hyp j (Nat.le_refl j) (by omega)
    have hstep := copyRun_ok m i iDimRow width j bins b hb hb1 hb2
    obtain ⟨nb, hnb⟩ : ∃ nb : bin_t, nb = b.take (u32 (width * iDimRow))
        ++ frameRun m (rowBase m i + u32 (j * width)) width
        ++ b.drop (u32 (width * iDimRow) + width) := ⟨_, rfl⟩
    rw [← hnb] at hstep
    have hjlt : j < bins.length := by
      rcases Nat.lt_or_ge j bins.length with h | h
      · exact h
      · rw [List.getElem?_eq_none h] at hb
        cases hb
    obtain ⟨bins1, e1, l1, same1, upd1⟩ := ih (j + 1) (bins.set j nb) (by
      intro k hk1 hk2
      obtain ⟨bk, hbk, r1, r2⟩ := hyp k (by omega) (by omega)
      refine ⟨bk, ?_, r1, r2⟩
      rw [List.getElem?_set, if_neg (by omega)]
      exact hbk)
    refine ⟨bins1, ?_, ?_, ?_, ?_⟩
    · simp only [copyRuns]
      rw [hstep]
      exact e1
    · rw [l1, List.length_set]
    · intro k hk
      rw [same1 k (by omega), List.getElem?_set, if_neg (by omega)]
    · intro k bk hk1 hk2 hbk
      rcases Nat.eq_or_lt_of_le hk1 with hjk | hjk
      · subst hjk
        rw [hb] at hbk
        cases hbk
        rw [same1 j (Or.inl (Nat.lt_succ_self j)), List.getElem?_set, if_pos rfl, if_pos hjlt, hnb]
      · refine upd1 k bk (by omega) (by omega) ?_
        rw [List.getElem?_set, if_neg (by omega)]
        exact hbk

/-- The loop that stores the medians: when the output vector has room for
one value per bin, every bin is sorted, the median of bin `k` is stored at
`iVal + k`, the entries below `iVal` are untouched and `iVal` advances by
the number of bins. -/
theorem saveMedians_ok : ∀ (bins done : rowbins_t) (values : List Nat) (iVal : Nat),
    iVal + bins.length ≤ values.length → values.length < 4294967296 →
    ∃ values1, saveMedians done bins values iVal
        = .ok (done.reverse ++ bins.map sortBin, values1, iVal + bins.length) ∧
      values1.length = values.length ∧
      (∀ k, k < iVal → values1[k]? = values[k]?) ∧
      (∀ k b, bins[k]? = some b → values1[iVal + k]? = some (getMedian (sortBin b))) := by
  intro bins
  induction bins with
  | nil =>
    intro done values iVal _ _
    refine ⟨values, by simp [saveMedians], rfl, fun _ _ => rfl, ?_⟩
    intro k b hb
    simp at hb
  | cons b rest ih =>
    intro done values iVal hroom hsmall
    have hlen : (b :: rest).length = rest.length + 1 := rfl
    have hlt : iVal < values.length := by omega
    have hu : u32 (iVal + 1) = iVal + 1 := u32_of_lt (by omega)
    obtain ⟨values1, e1, l1, low1, med1⟩ :=
      ih (sortBin b :: done) (values.set iVal (getMedian (sortBin b))) (iVal + 1)
        (by rw [List.length_set]; omega) (by rw [List.length_set]; exact hsmall)
    refine ⟨values1, ?_, ?_, ?_, ?_⟩
    · simp only [saveMedians]
      rw [if_pos hlt, hu, e1]
      simp [Nat.add_assoc, Nat.add_comm 1]
    · rw [l1, List.length_set]
    · intro k hk
      rw [low1 k (by omega), List.getElem?_set, if_neg (by omega)]
    · intro k bk hbk
      cases k with
      | zero =>
        simp at hbk
        subst hbk
        rw [Nat.add_zero, low1 iVal (Nat.lt_succ_self iVal), List.getElem?_set, if_pos rfl,
          if_pos hlt]
      | succ k =>
        have := med1 k bk (by simpa using hbk)
        rw [← this]
        congr 1
        omega

theorem Fits.mul_lt {m : Mat} {c R w h : Nat} (F : Fits m c R w h) {a b : Nat}
    (ha : a ≤ m.cols) (hb : b ≤ h * R) : a * b < 4294967296 :=
  Nat.lt_of_le_of_lt (Nat.mul_le_mul ha hb) F.small

theorem Fits.w_le {m : Mat} {c R w h : Nat} (F : Fits m c R w h) : w ≤ m.cols :=
  Nat.le_trans (Nat.le_mul_of_pos_right w (by have := F.hc; omega)) F.cols_ge

theorem Fits.c_le {m : Mat} {c R w h : Nat} (F : Fits m c R w h) : c ≤ m.cols :=
  Nat.le_trans (Nat.le_mul_of_pos_left c F.hw) F.cols_ge

theorem Fits.h_le {m : Mat} {c R w h : Nat} (F : Fits m c R w h) : h ≤ h * R :=
  Nat.le_mul_of_pos_right h F.hR

theorem Fits.R_le {m : Mat} {c R w h : Nat} (F : Fits m c R w h) : R ≤ h * R :=
  Nat.le_mul_of_pos_left R F.hh

theorem Fits.cols_pos {m : Mat} {c R w h : Nat} (F : Fits m c R w h) : 0 < m.cols :=
  Nat.lt_of_lt_of_le F.hw F.w_le

theorem Fits.rows_pos {m : Mat} {c R w h : Nat} (F : Fits m c R w h) : 0 < h * R :=
  Nat.lt_of_lt_of_le F.hh F.h_le

theorem Fits.lt_of_le_cols {m : Mat} {c R w h : Nat} (F : Fits m c R w h) {a : Nat}
    (ha : a ≤ m.cols) : a < 4294967296 := by
  have := F.mul_lt ha F.rows_pos
  omega

theorem Fits.lt_of_le_rows {m : Mat} {c R w h : Nat} (F : Fits m c R w h) {a : Nat}
    (ha : a ≤ h * R) : a < 4294967296 := by
  have := F.mul_lt F.cols_pos ha
  omega

/-- In a frame that fits, the `uint` product of the continuous branch does
not wrap and both branches start row `i` at the same offset. -/
theorem Fits.rowBase_eq {m : Mat} {c R w h : Nat} (F : Fits m c R w h) {i : Nat}
    (hi : i < m.rows) : rowBase m i = i * m.step := by
  unfold rowBase
  split
  · rename_i hcont
    rw [F.wf.continuous hcont i hi]
    apply u32_of_lt
    have := F.mul_lt (Nat.le_refl m.cols) (Nat.le_trans (Nat.le_of_lt hi) F.rows_le)
    rw [Nat.mul_comm]
    exact this
  · rfl

theorem Fits.run_inside {m : Mat} {c R w h : Nat} (F : Fits m c R w h) {i j : Nat}
    (hi : i < m.rows) (hj : j < c) : i * m.step + j * w + w ≤ m.size := by
  have h1 := F.wf.inside i hi
  have h2 : j * w + w ≤ m.cols := by
    calc j * w + w = (j + 1) * w := by rw [Nat.succ_mul]
      _ ≤ c * w := Nat.mul_le_mul_right w hj
      _ = w * c := Nat.mul_comm c w
      _ ≤ m.cols := F.cols_ge
  omega

theorem Fits.offset_lt {m : Mat} {c R w h : Nat} (F : Fits m c R w h) {j : Nat}
    (hj : j < c) : j * w < 4294967296 := by
  apply F.lt_of_le_cols
  calc j * w ≤ c * w := Nat.mul_le_mul_right w (Nat.le_of_lt hj)
    _ = w * c := Nat.mul_comm c w
    _ ≤ m.cols := F.cols_ge

theorem Fits.binOffset {m : Mat} {c R w h : Nat} (F : Fits m c R w h) {t : Nat}
    (ht : t < h) : u32 (w * t) = w * t ∧ w * t + w ≤ w * h := by
  have h1 : w * t + w ≤ w * h := by
    calc w * t + w = w * (t + 1) := by rw [Nat.mul_succ]
      _ ≤ w * h := Nat.mul_le_mul_left w ht
  refine ⟨u32_of_lt ?_, h1⟩
  have := F.mul_lt F.w_le F.h_le
  omega

theorem set_getElem_same (l : rowbins_t) (i : Nat) (h : i < l.length) : l.set i l[i] = l := by
  apply List.ext_getElem (by simp)
  intro n h1 h2
  rw [List.getElem_set]
  split
  · rename_i hin
    subst hin
    rfl
  · rfl

/-- The copies of one image row in a grid without remainders: every regular
bin receives the `w` pixels of its column range at offset `w * (i % h)`, the
copy into the last bin is empty, and no access leaves a bin or the frame. -/
theorem copies_even (m : Mat) (c R w h : Nat) (F : Fits m c R w h) (i : Nat) (hi : i < m.rows)
    (bins : rowbins_t) (hlen : bins.length = c)
    (hb : ∀ j, j < c - 1 → ∃ b, bins[j]? = some b ∧ b.length = w * h) :
    ∃ bins1, bins1.length = c ∧
      (∀ j b, j < c - 1 → bins[j]? = some b →
        bins1[j]? = some (b.take (w * (i % h)) ++ frameRun m (i * m.step + j * w) w
          ++ b.drop (w * (i % h) + w))) ∧
      copyRuns m i (i % h) w (c - 1) 0 bins = .ok bins1 ∧
      copyRun m i (i % h) 0 (c - 1) bins1 = .ok bins1 := by
  have hc := F.hc
  have ht : i % h < h := Nat.mod_lt i F.hh
  obtain ⟨ho, hroom⟩ := F.binOffset ht
  have hbase := F.rowBase_eq hi
  obtain ⟨bins1, e1, l1, same1, upd1⟩ := copyRuns_ok m i (i % h) w (c - 1) 0 bins (by
    intro k _ hk
    obtain ⟨b, hbk, hbl⟩ := hb k (by omega)
    refine ⟨b, hbk, ?_, ?_⟩
    · rw [ho, hbl]
      exact hroom
    · rw [hbase, u32_of_lt (F.offset_lt (show k < c by omega))]
      exact F.run_inside hi (by omega))
  have hlast : c - 1 < bins1.length := by omega
  refine ⟨bins1, by omega, ?_, e1, ?_⟩
  · intro j b hj hbj
    have := upd1 j b (Nat.zero_le j) (by omega) hbj
    rw [ho, hbase, u32_of_lt (F.offset_lt (show j < c by omega))] at this
    exact this
  · have hget : bins1[c - 1]? = some bins1[c - 1] := List.getElem?_eq_getElem hlast
    have hz : u32 (0 * (i % h)) = 0 := by simp [u32]
    have hz2 : u32 ((c - 1) * 0) = 0 := by simp [u32]
    rw [copyRun_ok m i (i % h) 0 (c - 1) bins1 _ hget (by rw [hz]; omega) (by
      rw [hz2, hbase]
      have := F.wf.inside i hi
      omega)]
    rw [hz]
    simp only [frameRun, List.range_zero, List.map_nil, List.take_zero, List.nil_append,
      Nat.zero_add, List.drop_zero]
    congr 1
    exact set_getElem_same bins1 (c - 1) hlast

theorem useBins_even (c R w h : Nat) (bins : rowbins_t) (i : Nat) :
    useBins (evenContext c R w h bins) i = true := by
  simp [useBins, evenContext]

/-- The body of the row loop in a grid without remainders: the row is copied
into the bins of `spBins`, and after the last row of a cell row the medians
are stored. -/
theorem rowStep_even (m : Mat) (c R w h : Nat) (F : Fits m c R w h) (i : Nat) (hi : i < m.rows)
    (bins : rowbins_t) (values : List Nat) (iVal : Nat) (hlen : bins.length = c)
    (hb : ∀ j, j < c - 1 → ∃ b, bins[j]? = some b ∧ b.length = w * h) :
    ∃ bins1, bins1.length = c ∧
      (∀ j b, j < c - 1 → bins[j]? = some b →
        bins1[j]? = some (b.take (w * (i % h)) ++ frameRun m (i * m.step + j * w) w
          ++ b.drop (w * (i % h) + w))) ∧
      (i % h ≠ h - 1 → rowStep m i (values, evenContext c R w h bins, iVal)
        = .ok (values, evenContext c R w h bins1, iVal)) ∧
      (i % h = h - 1 → ∀ res, saveMedians [] bins1 values iVal = .ok res →
        rowStep m i (values, evenContext c R w h bins, iVal)
          = .ok (res.2.1, evenContext c R w h res.1, res.2.2)) := by
  obtain ⟨bins1, l1, upd1, e1, e2⟩ := copies_even m c R w h F i hi bins hlen hb
  have hh := F.hh
  have hc1 : usub c 1 = c - 1 := usub_one (by have := F.hc; omega) (F.lt_of_le_cols F.c_le)
  have hh1 : usub h 1 = h - 1 := usub_one hh (F.lt_of_le_rows F.h_le)
  have hu := useBins_even c R w h bins i
  have hrb : rowBins (evenContext c R w h bins) i = some bins := by
    unfold rowBins
    rw [hu]
    rfl
  have hld : lastDimPx (evenContext c R w h bins) i = h := by
    unfold lastDimPx
    rw [hu]
    rfl
  have hst : ∀ bs, storeBins (evenContext c R w h bins) i bs = evenContext c R w h bs := by
    intro bs
    unfold storeBins
    rw [hu]
    rfl
  have hpx : (evenContext c R w h bins).dimRowsPx = h := rfl
  have hcpx : (evenContext c R w h bins).dimColsPx = w := rfl
  have hcl : (evenContext c R w h bins).dimColsPxLast = 0 := rfl
  have hdc : (evenContext c R w h bins).dimCols = c := rfl
  refine ⟨bins1, l1, upd1, ?_, ?_⟩
  · intro hne
    unfold rowStep
    simp only [hpx, hcpx, hcl, hdc, hrb, hld, hst, hc1, hh1, e1, e2, Nat.ne_of_gt hh, if_false,
      hne]
  · intro heq res hsave
    unfold rowStep
    rw [heq] at e1 e2
    simp only [hpx, hcpx, hcl, hdc, hrb, hld, hst, hc1, hh1, e1, e2, Nat.ne_of_gt hh, if_false,
      heq, hsave, if_true]

theorem succ_div_mod (n h : Nat) (hh : 0 < h) :
    (n % h + 1 < h → (n + 1) / h = n / h ∧ (n + 1) % h = n % h + 1) ∧
    (n % h + 1 = h → (n + 1) / h = n / h + 1 ∧ (n + 1) % h = 0) := by
  have e := Nat.div_add_mod n h
  constructor
  · intro hlt
    have e1 : n + 1 = (n % h + 1) + h * (n / h) := by omega
    rw [e1, Nat.add_mul_div_left _ _ hh, Nat.add_mul_mod_self_left, Nat.div_eq_of_lt hlt,
      Nat.mod_eq_of_lt hlt]
    omega
  · intro heq
    have e1 : n + 1 = 0 + h * (n / h + 1) := by rw [Nat.mul_succ]; omega
    rw [e1, Nat.add_mul_div_left _ _ hh, Nat.add_mul_mod_self_left]
    simp

theorem frameRun_eq_pixels (m : Mat) (i j w : Nat) :
    frameRun m (i * m.step + j * w) w = (List.range w).map (fun dk => m.pixel i (j * w + dk)) := by
  unfold frameRun Mat.pixel
  apply List.map_congr_left
  intro a _
  rw [Nat.add_assoc]

theorem cellRows_zero (m : Mat) (h w r c : Nat) : cellRows m h w r c 0 = [] := rfl

theorem cellRows_succ (m : Mat) (h w r c t : Nat) :
    cellRows m h w r c (t + 1)
      = cellRows m h w r c t ++ frameRun m ((r * h + t) * m.step + c * w) w := by
  unfold cellRows
  rw [List.range_succ, List.flatMap_append, frameRun_eq_pixels]
  simp

theorem cellRows_length (m : Mat) (h w r c t : Nat) : (cellRows m h w r c t).length = w * t := by
  induction t with
  | zero => rfl
  | succ t ih => rw [cellRows_succ, List.length_append, ih, frameRun_length, Nat.mul_succ]

/-- Writing one more row of a cell behind the rows already in the bin. -/
theorem take_after_write (b run pre : bin_t) (k w : Nat) (hb : k + w ≤ b.length)
    (hrun : run.length = w) (hpre : b.take k = pre) :
    (b.take k ++ run ++ b.drop (k + w)).length = b.length ∧
    (b.take k ++ run ++ b.drop (k + w)).take (k + w) = pre ++ run := by
  have hk : (b.take k).length = k := by rw [List.length_take]; omega
  constructor
  · simp only [List.length_append, List.length_drop, hk, hrun]
    omega
  · rw [List.take_append_of_le_length (by simp only [List.length_append, hk, hrun]; omega)]
    rw [List.take_of_length_le (by simp only [List.length_append, hk, hrun]; omega), hpre]

/-- One image row keeps the invariant of the row loop and raises no fault. -/
theorem loopInv_step (m : Mat) (c R w h : Nat) (F : Fits m c R w h) (n : Nat) (hn : n < m.rows)
    (st : List Nat × SGridContext × Nat) (hinv : LoopInv m c R w h n st) :
    ∃ st1, rowStep m n st = .ok st1 ∧ LoopInv m c R w h (n + 1) st1 := by
  obtain ⟨values, context, iVal⟩ := st
  obtain ⟨bins, hctx, hiv, hvl, hbl, hbins, hvals⟩ := hinv
  simp only at hctx hiv hvl hvals
  subst hctx
  subst hiv
  have hh := F.hh
  have ht : n % h < h := Nat.mod_lt n hh
  have hr : n / h < R := by
    apply Nat.div_lt_of_lt_mul
    exact Nat.lt_of_lt_of_le hn F.rows_le
  have hnn : n / h * h + n % h = n := Nat.div_add_mod' n h
  obtain ⟨_, hroom⟩ := F.binOffset ht
  obtain ⟨bins1, l1, upd1, hne, heq⟩ := rowStep_even m c R w h F n hn bins values (n / h * c) hbl
    (fun j hj => by
      obtain ⟨b, hb, hlen, _⟩ := hbins j hj
      exact ⟨b, hb, hlen⟩)
  have key : ∀ j, j < c - 1 → ∃ nb, bins1[j]? = some nb ∧ nb.length = w * h ∧
      nb.take (w * (n % h) + w) = cellRows m h w (n / h) j (n % h + 1) := by
    intro j hj
    obtain ⟨b, hb, hlen, htake⟩ := hbins j hj
    have hw := take_after_write b (frameRun m (n * m.step + j * w) w) _ (w * (n % h)) w
      (by rw [hlen]; exact hroom) (frameRun_length _ _ _) htake
    refine ⟨_, upd1 j b hj hb, by rw [hw.1, hlen], ?_⟩
    rw [hw.2, cellRows_succ, hnn]
  by_cases hcase : n % h = h - 1
  · obtain ⟨hd, hm⟩ := (succ_div_mod n h hh).2 (by omega)
    have hcR : c * R < 4294967296 := F.mul_lt F.c_le F.R_le
    have hfit : n / h * c + bins1.length ≤ values.length := by
      rw [l1, hvl, Nat.mul_comm c R]
      calc n / h * c + c = (n / h + 1) * c := by rw [Nat.succ_mul]
        _ ≤ R * c := Nat.mul_le_mul_right c hr
    obtain ⟨values1, e, lv, low, med⟩ := saveMedians_ok bins1 [] values (n / h * c) hfit
      (by rw [hvl]; exact hcR)
    refine ⟨(values1, evenContext c R w h (bins1.map sortBin), n / h * c + bins1.length), ?_, ?_⟩
    · have := heq hcase _ e
      simpa using this
    · refine ⟨bins1.map sortBin, rfl, ?_, ?_, ?_, ?_, ?_⟩
      · show n / h * c + bins1.length = (n + 1) / h * c
        rw [hd, l1, Nat.succ_mul]
      · show values1.length = c * R
        rw [lv, hvl]
      · rw [List.length_map, l1]
      · intro j hj
        obtain ⟨nb, hnb, hl, _⟩ := key j hj
        refine ⟨sortBin nb, ?_, ?_, ?_⟩
        · rw [List.getElem?_map, hnb]
          rfl
        · rw [sortBin_length, hl]
        · rw [hm, Nat.mul_zero, List.take_zero, cellRows_zero]
      · intro r j hrlt hj
        show values1[r * c + j]? = _
        rw [hd] at hrlt
        rcases Nat.lt_succ_iff_lt_or_eq.mp hrlt with hlt | hreq
        · have hb : r * c + j < n / h * c := by
            have h1 : (r + 1) * c ≤ n / h * c := Nat.mul_le_mul_right c hlt
            rw [Nat.succ_mul] at h1
            omega
          rw [low _ hb]
          exact hvals r j hlt hj
        · subst hreq
          obtain ⟨nb, hnb, hl, htk⟩ := key j hj
          rw [med j nb hnb]
          have hfull : w * (n % h) + w = nb.length := by
            rw [hl, hcase, ← Nat.mul_succ]
            congr 1
            omega
          rw [hfull, List.take_length] at htk
          have hrows : n % h + 1 = h := by omega
          rw [htk, hrows]
          rfl
  · obtain ⟨hd, hm⟩ := (succ_div_mod n h hh).1 (by omega)
    refine ⟨(values, evenContext c R w h bins1, n / h * c), hne hcase, bins1, rfl, ?_, hvl, l1,
      ?_, ?_⟩
    · show n / h * c = (n + 1) / h * c
      rw [hd]
    · intro j hj
      obtain ⟨nb, hnb, hl, htk⟩ := key j hj
      refine ⟨nb, hnb, hl, ?_⟩
      rw [hm, hd, Nat.mul_succ]
      exact htk
    · intro r j hrlt hj
      rw [hd] at hrlt
      exact hvals r j hrlt hj

/-- The row loop from row `n` to the last row keeps the invariant. -/
theorem rowLoop_even (m : Mat) (c R w h : Nat) (F : Fits m c R w h) :
    ∀ (k n : Nat) (st : List Nat × SGridContext × Nat), n + k = m.rows →
      LoopInv m c R w h n st →
      ∃ st1, rowLoop m k n st = .ok st1 ∧ LoopInv m c R w h m.rows st1 := by
  intro k
  induction k with
  | zero =>
    intro n st hnk hinv
    have hn : n = m.rows := by omega
    subst hn
    exact ⟨st, rfl, hinv⟩
  | succ k ih =>
    intro n st hnk hinv
    obtain ⟨st1, e1, inv1⟩ := loopInv_step m c R w h F n (by omega) st hinv
    obtain ⟨st2, e2, inv2⟩ := ih (n + 1) st1 (by omega) inv1
    refine ⟨st2, ?_, inv2⟩
    simp only [rowLoop]
    rw [e1]
    exact e2

/-- The context `createGridContext` builds for the image of `w * c` x `h * R`
pixels. -/
theorem createGridContext_even (m : Mat) (c R w h : Nat) (F : Fits m c R w h) :
    createGridContext (w * c) (h * R) c R
      = .ok (0, evenContext c R w h
          (List.replicate (c - 1) (List.replicate (w * h) 0) ++ [[]])) := by
  have hc := F.hc
  have hR := F.hR
  have hc0 : c ≠ 0 := by omega
  have hR0 : R ≠ 0 := by omega
  have e1 : w * c / c = w := Nat.mul_div_cancel w (by omega)
  have e2 : w * c % c = 0 := Nat.mul_mod_left w c
  have e3 : h * R / R = h := Nat.mul_div_cancel h (by omega)
  have e4 : h * R % R = 0 := Nat.mul_mod_left h R
  have e5 : u32 (w * h) = w * h := u32_of_lt (F.mul_lt F.w_le F.h_le)
  have e6 : usub c 1 = c - 1 := usub_one (by omega) (F.lt_of_le_cols F.c_le)
  have e7 : u32 (0 * h) = 0 := by rw [Nat.zero_mul]; rfl
  unfold createGridContext
  rw [if_neg hc0, if_neg hR0]
  simp only [e1, e2, e3, e4, e5, e6, e7, resize, List.take_zero, Nat.zero_sub, List.replicate_zero,
    List.append_nil, ne_eq, not_true_eq_false, if_false, evenContext]

/-- The state before the first image row satisfies the invariant. -/
theorem loopInv_init (m : Mat) (c R w h : Nat) (F : Fits m c R w h) :
    LoopInv m c R w h 0 ((createIntensityArray c R).2,
      evenContext c R w h (List.replicate (c - 1) (List.replicate (w * h) 0) ++ [[]]), 0) := by
  have hc := F.hc
  refine ⟨_, rfl, ?_, ?_, ?_, ?_, ?_⟩
  · show 0 = 0 / h * c
    rw [Nat.zero_div, Nat.zero_mul]
  · show (createIntensityArray c R).2.length = c * R
    unfold createIntensityArray
    rw [List.length_replicate]
    exact u32_of_lt (F.mul_lt F.c_le F.R_le)
  · rw [List.length_append, List.length_replicate]
    simp only [List.length_singleton]
    omega
  · intro j hj
    refine ⟨List.replicate (w * h) 0, ?_, List.length_replicate _ _, ?_⟩
    · rw [List.getElem?_append_left (by rw [List.length_replicate]; exact hj)]
      rw [List.getElem?_eq_getElem (by rw [List.length_replicate]; exact hj)]
      simp
    · rw [Nat.zero_mod, Nat.mul_zero, List.take_zero, cellRows_zero]
  · intro r j hr _
    rw [Nat.zero_div] at hr
    omega

/-- One call of `splitImageByGrid` on the fresh context and output of a grid
without remainders and a frame that fits: it returns 0 and an output of
`R * c` values in which, for every cell row the frame completes, the value of
every regular cell is the median of the pixels of its rectangle; every
regular bin starts with the rows read for the cell row in progress. -/
theorem split_even (m : Mat) (c R w h : Nat) (F : Fits m c R w h) :
    ∃ values bins, splitImageByGrid m (createIntensityArray c R).2
        (evenContext c R w h (List.replicate (c - 1) (List.replicate (w * h) 0) ++ [[]]))
        = .ok (0, values, evenContext c R w h bins) ∧
      values.length = R * c ∧
      (∀ r j, r < m.rows / h → j < c - 1 →
        values[r * c + j]? = some (getMedian (sortBin (cellPixels m h w r j)))) ∧
      (∀ j, j < c - 1 → ∃ b, bins[j]? = some b ∧ b.length = w * h ∧
        b.take (w * (m.rows % h)) = cellRows m h w (m.rows / h) j (m.rows % h)) := by
  obtain ⟨st, e, bins, hctx, _, hvl, _, hbins, hvals⟩ :=
    rowLoop_even m c R w h F m.rows 0 _ (Nat.zero_add _) (loopInv_init m c R w h F)
  obtain ⟨values, context, iVal⟩ := st
  simp only at hctx hvl hvals
  subst hctx
  refine ⟨values, bins, ?_, by rw [hvl, Nat.mul_comm], hvals, hbins⟩
  simp only [splitImageByGrid]
  rw [e]

/-- The pipeline on a frame of exactly `w * c` x `h * R` pixels. -/
theorem fingerprint_even (m : Mat) (c R w h : Nat) (F : Fits m c R w h) (hcols : m.cols = w * c)
    (hrows : m.rows = h * R) :
    ∃ values bins, fingerprint m c R = .ok (0, values, evenContext c R w h bins) ∧
      values.length = R * c ∧
      ∀ r j, r < R → j < c - 1 →
        values[r * c + j]? = some (getMedian (sortBin (cellPixels m h w r j))) := by
  have hRh : m.rows / h = R := by
    rw [hrows]
    exact Nat.mul_div_cancel_left R F.hh
  obtain ⟨values, bins, e, hl, hv, _⟩ := split_even m c R w h F
  refine ⟨values, bins, ?_, hl, ?_⟩
  · unfold fingerprint
    rw [hcols, hrows, createGridContext_even m c R w h F]
    exact e
  · intro r j hr hj
    exact hv r j (by rw [hRh]; exact hr) hj

/-- C1 fails on a frame of 1 column and 3 rows with a grid of 1 column and
2 rows: the output vector has 2 entries.  `createGridContext` fills the bins
of the last cell row through an iterator of `spBins`, so that no fingerprint
is defined.  On the context a library without the check leaves behind, two
medians are stored after image rows 0 and 1 and `iVal` is 2; image row 2
belongs to the last cell row again, satisfies `iDimRow == lastDimPx - 1`
again, and its store goes to index 2, outside the vector. -/
theorem C1_store_outside_output :
    (createIntensityArray 1 2).2.length = 2 ∧
    fingerprint (constMat 3 1 10) 1 2 = .error .foreignIterator ∧
    (∃ st, rowLoop (constMat 3 1 10) 2 0 ((createIntensityArray 1 2).2, lastRowContext, 0)
        = .ok st ∧
      st.2.2 = 2 ∧ useBins st.2.1 2 = false ∧ 2 % st.2.1.dimRowsPx = usub (lastDimPx st.2.1 2) 1 ∧
      rowStep (constMat 3 1 10) 2 st = .error .valuesOverflow) ∧
    splitImageByGrid (constMat 3 1 10) (createIntensityArray 1 2).2 lastRowContext
      = .error .valuesOverflow :=
  ⟨rfl, rfl, ⟨_, rfl, rfl, rfl, rfl, rfl⟩, rfl⟩

/-- C2 fails on an image of 100 x 96 with a grid of 32 x 32: the regular
extents are 3 and the last ones are the remainders 4 and 0, so that the
extents of a row of tiles sum to 97 and those of a column to 93.  On the
100 x 100 image the second row of bins is filled through an iterator of the
first one. -/
theorem C2_last_extent_is_remainder :
    (∃ context, createGridContext 100 96 32 32 = .ok (0, context) ∧
      context.dimCols = 32 ∧ context.dimRows = 32 ∧
      context.dimColsPx = 3 ∧ context.dimColsPxLast = 4 ∧
      context.dimRowsPx = 3 ∧ context.dimRowsPxLast = 0 ∧
      context.dimColsPx * (context.dimCols - 1) + context.dimColsPxLast = 97 ∧
      context.dimRowsPx * (context.dimRows - 1) + context.dimRowsPxLast = 93) ∧
    createGridContext 100 100 32 32 = .error .foreignIterator :=
  ⟨⟨_, rfl, rfl, rfl, rfl, rfl, rfl, rfl, rfl, rfl⟩, rfl⟩

/-- C3 fails on frames whose pixels all equal 10: with 2 x 1 pixels and a
grid of 2 x 1 the fingerprint is `[10, 0]`, with 4 x 4 pixels and a grid of
2 x 2 it is `[10, 0, 10, 0]`, the bin of the last column being empty; with
100 x 100 pixels and a grid of 32 x 32 no fingerprint is produced, the bins of
the last cell row being filled through an iterator of `spBins`. -/
theorem C3_uniform_frame_last_column_zero :
    (∃ context, fingerprint (constMat 1 2 10) 2 1 = .ok (0, [10, 0], context) ∧
      context.spBins = [[10], []]) ∧
    (∃ context, fingerprint (constMat 4 4 10) 2 2 = .ok (0, [10, 0, 10, 0], context) ∧
      context.spBins = [[10, 10, 10, 10], []]) ∧
    fingerprint (constMat 100 100 10) 32 32 = .error .foreignIterator :=
  ⟨⟨_, rfl, rfl⟩, ⟨_, rfl, rfl⟩, rfl⟩

/-- C4: for every byte buffer `b` of length `n`, with `s` its ascending sort
(a sorted permutation of `b`), `getMedian s` is 0 when `n = 0`, `s[n/2]` when
`n` is odd and the floor of the exact sum of `s[n/2-1]` and `s[n/2]` halved
when `n` is even; the result fits in 8 bits; `[1,2,3,4]` gives 2, `[1,2,3]`
gives 2 and `[5]` gives 5. -/
theorem C4_getMedian_of_sorted (b : bin_t) (hb : ∀ x ∈ b, x < 256) :
    (sortBin b).Perm b ∧ (sortBin b).Sorted (fun x y => x ≤ y) ∧
    (b.length = 0 → getMedian (sortBin b) = 0) ∧
    (b.length % 2 = 1 → getMedian (sortBin b) = (sortBin b).getD (b.length / 2) 0) ∧
    (b.length ≠ 0 → b.length % 2 = 0 →
      getMedian (sortBin b) =
        ((sortBin b).getD (b.length / 2 - 1) 0 + (sortBin b).getD (b.length / 2) 0) / 2) ∧
    getMedian (sortBin b) < 256 ∧
    getMedian (sortBin [1, 2, 3, 4]) = 2 ∧ getMedian (sortBin [1, 2, 3]) = 2 ∧
    getMedian (sortBin [5]) = 5 := by
  have hs : ∀ x ∈ sortBin b, x < 256 := fun x hx => hb x ((sortBin_perm b).mem_iff.mp hx)
  refine ⟨sortBin_perm b, sortBin_sorted b, ?_, ?_, ?_, getMedian_lt _ hs, by decide, by decide,
    by decide⟩
  · intro h0
    simp [getMedian, sortBin_length, h0]
  · intro h1
    have hne : b.length ≠ 0 := by omega
    have hodd : ¬ b.length % 2 = 0 := by omega
    simp [getMedian, sortBin_length, hne, hodd]
  · intro hne heven
    have h1 := getD_lt_of_forall_lt (sortBin b) (b.length / 2 - 1) hs
    have h2 := getD_lt_of_forall_lt (sortBin b) (b.length / 2) hs
    simp only [getMedian, sortBin_length, hne, heven, if_true, if_false]
    apply Nat.mod_eq_of_lt
    omega

/-- C4 at the buffer `[4, 1, 3, 2]`: its length is even, the median of its
sort is the halved sum of the two middle bytes. -/
theorem C4_getMedian_of_sorted_witness :
    (∀ x ∈ ([4, 1, 3, 2] : bin_t), x < 256) ∧
    getMedian (sortBin [4, 1, 3, 2]) =
      ((sortBin [4, 1, 3, 2]).getD 1 0 + (sortBin [4, 1, 3, 2]).getD 2 0) / 2 :=
  ⟨by decide, (C4_getMedian_of_sorted [4, 1, 3, 2] (by decide)).2.2.2.2.1 (by decide) (by decide)⟩

/-- C5 fails on a frame of 5 x 1 pixels `1,2,3,4,5` with a grid of 3 x 1: the
run of the last column starts at column 4 and is 2 bytes long.  When the
frame owns exactly its 5 bytes the call reads past them.  When more memory is
reachable, two calls in a row on one context and one output vector, with
frames of the same 5 pixels, give `[1, 2, 6]` and then `[1, 2, 7]`: the last
value follows the byte behind the frame (7, then 9). -/
theorem C5_fingerprint_reads_behind_frame :
    fingerprint (listMat 1 5 [1, 2, 3, 4, 5]) 3 1 = .error .frameOverread ∧
    (∀ k, k < 5 → (viewMat 7).pixel 0 k = (viewMat 9).pixel 0 k) ∧
    ∃ context context1 context2, createGridContext 5 1 3 1 = .ok (0, context) ∧
      splitImageByGrid (viewMat 7) (createIntensityArray 3 1).2 context
        = .ok (0, [1, 2, 6], context1) ∧
      splitImageByGrid (viewMat 9) [1, 2, 6] context1 = .ok (0, [1, 2, 7], context2) :=
  ⟨rfl, by decide, _, _, _, rfl, rfl, rfl⟩

/-- C6 fails on the matrix of 5 x 2 pixels `1 .. 10` with a grid of 3 x 2.
Image row 1 starts at offset 5 in the continuous branch and at offset 8 in
the row-pointer branch (rows of 8 bytes, padding 99), and the run of the
last column, which starts at column 4 and is 2 bytes long, reads the first
pixel of the next row in the one and a padding byte in the other: stored
continuously with more memory behind it the matrix gives `[1, 2, 5, 6, 7, 10]`,
stored continuously in exactly its 10 bytes it is read past its end, stored
with padded rows it gives `[1, 2, 52, 6, 7, 54]`. -/
theorem C6_layouts_differ :
    (∀ i, i < 2 → ∀ k, k < 5 →
      topRowsMat.pixel i k = (paddedMat 2 5 8 [1, 2, 3, 4, 5, 6, 7, 8, 9, 10] 99).pixel i k ∧
      topRowsMat.pixel i k = (listMat 2 5 [1, 2, 3, 4, 5, 6, 7, 8, 9, 10]).pixel i k) ∧
    rowBase topRowsMat 1 = 5 ∧
    rowBase (paddedMat 2 5 8 [1, 2, 3, 4, 5, 6, 7, 8, 9, 10] 99) 1 = 8 ∧
    (∃ context, fingerprint topRowsMat 3 2 = .ok (0, [1, 2, 5, 6, 7, 10], context) ∧
      context.spBins = [[6], [7], [10, 11]]) ∧
    fingerprint (listMat 2 5 [1, 2, 3, 4, 5, 6, 7, 8, 9, 10]) 3 2 = .error .frameOverread ∧
    (∃ context, fingerprint (paddedMat 2 5 8 [1, 2, 3, 4, 5, 6, 7, 8, 9, 10] 99) 3 2
        = .ok (0, [1, 2, 52, 6, 7, 54], context) ∧
      context.spBins = [[6], [7], [10, 99]]) :=
  ⟨by decide, rfl, rfl, ⟨_, rfl, rfl⟩, rfl, ⟨_, rfl, rfl⟩⟩

/-- C7 fails for the image 10 x 10 with a grid of 20 columns and 1 row:
`createGridContext` returns 0 with a context whose regular width is 0. -/
theorem C7_no_rejection :
    ∃ context, createGridContext 10 10 20 1 = .ok (0, context) ∧
      context.dimColsPx = 0 ∧ context.dimColsPxLast = 10 :=
  ⟨_, rfl, rfl, rfl⟩

/-- C7 amended: `createGridContext` checks nothing and has no error result:
for every image and every grid with at least one column and one row whose
row count divides the image height and whose memory demand, 24 bytes per bin
header and one byte per pixel, is below `2^32` bytes, also when the grid is
wider than the image, it returns 0 with a context holding the grid size, the
quotients and the remainders. -/
theorem C7_createGridContext_returns_zero (imgCols imgRows dimCols dimRows : Nat)
    (hc : 1 ≤ dimCols) (hr : 1 ≤ dimRows) (hdiv : imgRows % dimRows = 0)
    (_hmem : 24 * dimCols + imgCols * imgRows < 4294967296) :
    ∃ context, createGridContext imgCols imgRows dimCols dimRows = .ok (0, context) ∧
      context.dimCols = dimCols ∧ context.dimRows = dimRows ∧
      context.dimColsPx = imgCols / dimCols ∧ context.dimColsPxLast = imgCols % dimCols ∧
      context.dimRowsPx = imgRows / dimRows ∧ context.dimRowsPxLast = 0 := by
  have h1 : dimCols ≠ 0 := by omega
  have h2 : dimRows ≠ 0 := by omega
  simp [createGridContext, h1, h2, hdiv]

/-- C7 amended, at the image 10 x 10 with a grid of 20 columns and 1 row. -/
theorem C7_createGridContext_returns_zero_witness :
    (1 ≤ 20 ∧ 1 ≤ 1 ∧ 10 % 1 = 0 ∧ 24 * 20 + 10 * 10 < 4294967296) ∧
    ∃ context, createGridContext 10 10 20 1 = .ok (0, context) ∧
      context.dimCols = 20 ∧ context.dimRows = 1 ∧
      context.dimColsPx = 10 / 20 ∧ context.dimColsPxLast = 10 % 20 ∧
      context.dimRowsPx = 10 / 1 ∧ context.dimRowsPxLast = 0 :=
  ⟨by decide, C7_createGridContext_returns_zero 10 10 20 1 (by decide) (by decide) (by decide)
    (by decide)⟩

/-- C8 fails for the context of a 2 x 2 image with a grid of 2 x 1 and a frame
of 4 x 1 pixels that all equal 7: the call returns 0 and the first bin has
changed from `[0, 0]` to `[7, 0]`. -/
theorem C8_mismatched_frame_accepted :
    ∃ context context1, createGridContext 2 2 2 1 = .ok (0, context) ∧
      (constMat 1 4 7).cols ≠ 2 ∧ (constMat 1 4 7).rows ≠ 2 ∧
      context.spBins = [[0, 0], []] ∧
      splitImageByGrid (constMat 1 4 7) (createIntensityArray 2 1).2 context
        = .ok (0, [0, 0], context1) ∧
      context1.spBins = [[7, 0], []] :=
  ⟨_, _, rfl, by decide, by decide, rfl, rfl, rfl⟩

/-- C8 amended: `splitImageByGrid` does not compare the frame with the context
and has no failure result.  For the context of an image of `w * gridCols` x
`h * gridRows` pixels (`gridCols >= 2`) and every frame of other dimensions
that has at least `w * gridCols` columns and at most `h * gridRows` rows, the
call returns 0 and bins the frame: for every cell row `r` the frame completes
and every cell column `c < gridCols - 1` the output value at `r * gridCols + c`
is the median of the rectangle of that cell in the frame, and every regular
bin starts with the frame rows read for the cell row in progress. -/
theorem C8_mismatched_frame_binned (m : Mat) (gridCols gridRows w h : Nat)
    (hwf : m.WellFormed) (hc : 2 ≤ gridCols) (hr : 1 ≤ gridRows) (hw : 0 < w) (hh : 0 < h)
    (hcols : w * gridCols ≤ m.cols) (hrows : m.rows ≤ h * gridRows)
    (_hmis : m.cols ≠ w * gridCols ∨ m.rows ≠ h * gridRows)
    (hsmall : m.cols * (h * gridRows) < 4294967296) :
    ∃ context values context1,
      createGridContext (w * gridCols) (h * gridRows) gridCols gridRows = .ok (0, context) ∧
      splitImageByGrid m (createIntensityArray gridCols gridRows).2 context
        = .ok (0, values, context1) ∧
      (∀ r c, r < m.rows / h → c < gridCols - 1 →
        values[r * gridCols + c]? = some (getMedian (sortBin (cellPixels m h w r c)))) ∧
      (∀ c, c < gridCols - 1 → ∃ b, context1.spBins[c]? = some b ∧ b.length = w * h ∧
        b.take (w * (m.rows % h)) = cellRows m h w (m.rows / h) c (m.rows % h)) := by
  have F : Fits m gridCols gridRows w h := ⟨hwf, hc, hr, hw, hh, hcols, hrows, hsmall⟩
  obtain ⟨values, bins, e, _, hv, hb⟩ := split_even m gridCols gridRows w h F
  exact ⟨_, values, _, createGridContext_even m gridCols gridRows w h F, e, hv, hb⟩

/-- C8 amended, at the context of a 2 x 4 image with a grid of 2 x 2 and the
frame of 4 x 3 pixels `1 .. 12`. -/
theorem C8_mismatched_frame_binned_witness :
    (listMat 3 4 [1, 2, 3, 4, 5, 6, 7, 8, 9, 10, 11, 12]).WellFormed ∧
    (2 ≤ 2 ∧ 1 ≤ 2 ∧ 0 < 1 ∧ 0 < 2 ∧ 1 * 2 ≤ 4 ∧ 3 ≤ 2 * 2 ∧ (4 ≠ 1 * 2 ∨ 3 ≠ 2 * 2) ∧
      4 * (2 * 2) < 4294967296) ∧
    ∃ context values context1,
      createGridContext (1 * 2) (2 * 2) 2 2 = .ok (0, context) ∧
      splitImageByGrid (listMat 3 4 [1, 2, 3, 4, 5, 6, 7, 8, 9, 10, 11, 12])
        (createIntensityArray 2 2).2 context = .ok (0, values, context1) ∧
      (∀ r c, r < 3 / 2 → c < 2 - 1 → values[r * 2 + c]? = some (getMedian (sortBin
        (cellPixels (listMat 3 4 [1, 2, 3, 4, 5, 6, 7, 8, 9, 10, 11, 12]) 2 1 r c)))) ∧
      (∀ c, c < 2 - 1 → ∃ b, context1.spBins[c]? = some b ∧ b.length = 1 * 2 ∧
        b.take (1 * (3 % 2))
          = cellRows (listMat 3 4 [1, 2, 3, 4, 5, 6, 7, 8, 9, 10, 11, 12]) 2 1 (3 / 2) c (3 % 2)) :=
  have wf : (listMat 3 4 [1, 2, 3, 4, 5, 6, 7, 8, 9, 10, 11, 12]).WellFormed :=
    ⟨fun _ _ _ => rfl, fun i hi => by
      have h1 : i < 3 := hi
      show i * 4 + 4 ≤ 3 * 4
      omega⟩
  ⟨wf, by decide, C8_mismatched_frame_binned _ 2 2 1 2 wf (by decide) (by decide) (by decide)
    (by decide) (by decide) (by decide) (Or.inl (by decide)) (by decide)⟩

/-- C9 fails on the frame of 5 x 2 pixels `1 .. 10` with a grid of 3 x 2: in
image row 0 the run copied into the last bin is `[5, 6]`, and 6 is the first
pixel of image row 1; in image row 1 the same run ends behind the frame. -/
theorem C9_last_run_leaves_row :
    (listMat 2 5 [1, 2, 3, 4, 5, 6, 7, 8, 9, 10]).pixel 1 0 = 6 ∧
    (∃ context, createGridContext 5 2 3 2 = .ok (0, context) ∧
      ∃ context1, rowStep (listMat 2 5 [1, 2, 3, 4, 5, 6, 7, 8, 9, 10]) 0
          ((createIntensityArray 3 2).2, context, 0) = .ok ([1, 2, 5, 0, 0, 0], context1, 3) ∧
        context1.spBins = [[1], [2], [5, 6]]) ∧
    fingerprint (listMat 2 5 [1, 2, 3, 4, 5, 6, 7, 8, 9, 10]) 3 2 = .error .frameOverread :=
  ⟨rfl, ⟨_, rfl, _, rfl, rfl⟩, rfl⟩

/-- C10 fails on a frame of 131072 x 65536 pixels with a grid of 2 columns and
1 row: the width and the height are positive multiples of the grid, the
`uint` product `dimColsPx * dimRowsPx = 65536 * 65536` wraps to 0, the bins
are allocated empty and the first copy leaves its bin. -/
theorem C10_bin_size_wraps :
    (constMat 65536 131072 0).WellFormed ∧
    (constMat 65536 131072 0).cols = 65536 * 2 ∧ (constMat 65536 131072 0).rows = 65536 * 1 ∧
    (∃ context, createGridContext 131072 65536 2 1 = .ok (0, context) ∧
      context.dimColsPx = 65536 ∧ context.dimRowsPx = 65536 ∧ context.spBins = [[], []]) ∧
    fingerprint (constMat 65536 131072 0) 2 1 = .error .binOverflow := by
  refine ⟨⟨fun _ _ _ => rfl, ?_⟩, rfl, rfl, ⟨_, rfl, rfl, rfl, rfl⟩, rfl⟩
  intro i hi
  have h1 : i < 65536 := hi
  show i * 131072 + 131072 ≤ 65536 * 131072
  omega

/-- C10 amended: for every grid of `gridCols >= 2` columns and `gridRows >= 1`
rows and every frame of `w * gridCols` x `h * gridRows` pixels with `w, h > 0`
and fewer than `2^32` pixels, `createIntensityArray`, `createGridContext` and
one call of `splitImageByGrid` return 0 with `dimColsPx = w`, `dimRowsPx = h`
and an output of `gridRows * gridCols` values in which, for every cell row
`r` and every cell column `c < gridCols - 1`, the value at `r * gridCols + c`
is `getMedian` of the sorted pixels `frame[i][k]` with `r*h <= i < (r+1)*h`
and `c*w <= k < (c+1)*w`. -/
theorem C10_regular_cells_median (m : Mat) (gridCols gridRows w h : Nat)
    (hwf : m.WellFormed) (hc : 2 ≤ gridCols) (hr : 1 ≤ gridRows)
    (hw : 0 < w) (hcols : m.cols = w * gridCols) (hh : 0 < h) (hrows : m.rows = h * gridRows)
    (hsmall : m.cols * m.rows < 4294967296) :
    ∃ values context, fingerprint m gridCols gridRows = .ok (0, values, context) ∧
      context.dimColsPx = w ∧ context.dimRowsPx = h ∧
      values.length = gridRows * gridCols ∧
      ∀ r c, r < gridRows → c < gridCols - 1 →
        values[r * gridCols + c]? = some (getMedian (sortBin (cellPixels m h w r c))) := by
  obtain ⟨values, bins, e, hl, hv⟩ := fingerprint_even m gridCols gridRows w h
    ⟨hwf, hc, hr, hw, hh, Nat.le_of_eq hcols.symm, Nat.le_of_eq hrows, by rw [← hrows]; exact hsmall⟩
    hcols hrows
  exact ⟨values, _, e, rfl, rfl, hl, hv⟩

/-- C10 amended, at the frame of 4 x 4 pixels `1 .. 16` with a grid of 2 x 2
cells of 2 x 2 pixels. -/
theorem C10_regular_cells_median_witness :
    (listMat 4 4 [1, 2, 3, 4, 5, 6, 7, 8, 9, 10, 11, 12, 13, 14, 15, 16]).WellFormed ∧
    (2 ≤ 2 ∧ 1 ≤ 1 ∧ 0 < 2 ∧ 4 = 2 * 2 ∧ 4 * 4 < 4294967296) ∧
    ∃ values context,
      fingerprint (listMat 4 4 [1, 2, 3, 4, 5, 6, 7, 8, 9, 10, 11, 12, 13, 14, 15, 16]) 2 2
        = .ok (0, values, context) ∧
      context.dimColsPx = 2 ∧ context.dimRowsPx = 2 ∧ values.length = 2 * 2 ∧
      ∀ r c, r < 2 → c < 2 - 1 → values[r * 2 + c]? = some (getMedian (sortBin
        (cellPixels (listMat 4 4 [1, 2, 3, 4, 5, 6, 7, 8, 9, 10, 11, 12, 13, 14, 15, 16])
          2 2 r c))) :=
  have wf : (listMat 4 4 [1, 2, 3, 4, 5, 6, 7, 8, 9, 10, 11, 12, 13, 14, 15, 16]).WellFormed :=
    ⟨fun _ _ _ => rfl, fun i hi => by
      have h1 : i < 4 := hi
      show i * 4 + 4 ≤ 4 * 4
      omega⟩
  ⟨wf, by decide, C10_regular_cells_median _ 2 2 2 2 wf (by decide) (by decide) (by decide) rfl
    (by decide) rfl (by decide)⟩

end ProjectPex
